import Mathlib

/-!
Verification development for the bitstream-entity core of the openfpga
repository (Greenpak4 device model).  The repository snapshot contains only
the interface header `src/greenpak4/Greenpak4Inverter.h`; the member function
bodies (`Load`, `Save`, `GetConfigLen`, `SetInput`, port enumeration) and the
base classes `Greenpak4BitstreamEntity` / `Greenpak4Device` are declared but
not present, so the operational behaviour below is modelled from the spec, as
noted on each definition.  The header fixes the shapes: the constructor takes
an addressing triple `(matrix, ibase, oword)`, `SetInput` takes a single
producer-entity reference and no port name, and the inverter stores exactly
one input binding `m_input`.
-/

/-- Kind tag for the modelled primitive variants: the inverter from the
header, and a sourcing primitive with no inputs (the spec's scenario entity
`A`, a pure producer with zero configuration bits). -/
inductive EntityKind where
  | inverter
  | source
deriving DecidableEq, Repr

/-- Modelled from the spec: a Bitstream Entity, identified by the addressing
triple `(matrix, ibase, oword)` assigned at construction (header lines
29–33), with the inverter's single non-owning input reference `m_input`
(header line 52) modelled as an optional index into the Device Model's
entity collection, per the spec's arena-plus-index design note. -/
structure Entity where
  kind : EntityKind
  matrix : Nat
  ibase : Nat
  oword : Nat
  input : Option Nat
deriving DecidableEq, Repr

/-- Modelled from the spec: the Device Model, owner of the Bit Array and of
the entity collection, with the device-wide layout constants (selector field
width in bits, bits per routing matrix) that the missing
`Greenpak4Device` class would hold. -/
structure Device where
  selWidth : Nat
  matrixBits : Nat
  bitArrayLen : Nat
  entities : List Entity
deriving DecidableEq, Repr

/-- Modelled from the spec: `GetConfigLen` returns the exact number of
configuration bits the entity consumes, a pure function of its static
type and the device's layout constants.  The inverter consumes one
selector field for its single input; the pure source consumes none. -/
def GetConfigLen (d : Device) (e : Entity) : Nat :=
  match e.kind with
  | EntityKind.inverter => d.selWidth
  | EntityKind.source => 0

/-- Modelled from the spec: the first bit of the entity's reserved range,
computed deterministically from the addressing triple and the device's
fixed bit-layout convention, never from runtime state. -/
def configBase (d : Device) (e : Entity) : Nat :=
  e.matrix * d.matrixBits + e.ibase * d.selWidth

/-- Modelled from the spec: the reserved bit range of an entity, as a
(start, length) pair determined by its addressing triple and
`GetConfigLen`. -/
def reservedRange (d : Device) (e : Entity) : Nat × Nat :=
  (configBase d e, GetConfigLen d e)

/-- Half-open interval overlap test on (start, length) ranges; a
zero-length range overlaps nothing. -/
def overlaps (r1 r2 : Nat × Nat) : Bool :=
  decide (r1.1 < r2.1 + r2.2) && decide (r2.1 < r1.1 + r1.2)

/-- Write the bits `v` into `bs` starting at offset `off`; bits outside
that window, and positions past the end of `bs`, are unchanged. -/
def writeBits : List Bool → Nat → List Bool → List Bool
  | [], _, _ => []
  | b :: bs, n + 1, v => b :: writeBits bs n v
  | _ :: bs, 0, v :: vs => v :: writeBits bs 0 vs
  | b :: bs, 0, [] => b :: bs

/-- Read `len` bits of `bs` starting at offset `off`. -/
def readBits (bs : List Bool) (off len : Nat) : List Bool :=
  (bs.drop off).take len

/-- Encode an output address as `w` selector bits, least significant
first. -/
def encodeAddr : Nat → Nat → List Bool
  | 0, _ => []
  | w + 1, a => (a % 2 == 1) :: encodeAddr w (a / 2)

/-- Decode a selector bit field (least significant first) back to the
address value it encodes. -/
def decodeAddr : List Bool → Nat
  | [] => 0
  | b :: rest => (if b then 1 else 0) + 2 * decodeAddr rest

/-- Index of the first entity in the collection whose output address is
`a`; this is the Device Model's address-to-entity re-linking step. -/
def findByOword : List Entity → Nat → Option Nat
  | [], _ => none
  | e :: rest, a =>
    if e.oword == a then some 0 else (findByOword rest a).map (· + 1)

/-- Modelled from the spec: `SetInput` (header line 44) rebinds the
inverter's single input port to the given producer reference; it touches no
bit array and cannot fail. -/
def SetInput (e : Entity) (producer : Nat) : Entity :=
  { e with input := some producer }

/-- Modelled from the spec: `Save` (header line 40) writes the entity's
logical state into its reserved range of the bit array, resolving the input
reference to the producing entity's current output address and encoding that
address into the selector bits.  It returns a failure result, leaving the
bit array unchanged, when the required input is unconnected, dangling, or
resolves to an address that does not fit the selector width. -/
def Save (d : Device) (e : Entity) (bs : List Bool) : Bool × List Bool :=
  match e.kind with
  | EntityKind.source => (true, bs)
  | EntityKind.inverter =>
    match e.input with
    | none => (false, bs)
    | some idx =>
      match d.entities.get? idx with
      | none => (false, bs)
      | some p =>
        if p.oword < 2 ^ d.selWidth then
          (true, writeBits bs (configBase d e) (encodeAddr d.selWidth p.oword))
        else
          (false, bs)

/-- Modelled from the spec: `Load` (header line 39) reads the entity's
reserved bits, decodes the selected upstream address, and re-links it to a
live entity reference; when the pattern decodes to no valid primitive state
(no entity has that output address) it returns failure and leaves the
entity's previous logical state unmodified. -/
def Load (d : Device) (e : Entity) (bs : List Bool) : Bool × Entity :=
  match e.kind with
  | EntityKind.source => (true, e)
  | EntityKind.inverter =>
    match findByOword d.entities (decodeAddr (readBits bs (configBase d e) d.selWidth)) with
    | some idx => (true, { e with input := some idx })
    | none => (false, e)

/-- Modelled from the spec: `GetInputPorts` (header line 48) enumerates the
fixed, statically known input port names of the primitive's type. -/
def GetInputPorts (e : Entity) : List String :=
  match e.kind with
  | EntityKind.inverter => ["IN"]
  | EntityKind.source => []

/-- Modelled from the spec: `GetOutputPorts` (header line 49) enumerates the
fixed, statically known output port names of the primitive's type. -/
def GetOutputPorts (e : Entity) : List String :=
  match e.kind with
  | EntityKind.inverter => ["OUT"]
  | EntityKind.source => ["OUT"]

/-- Modelled from the spec: attaching an entity to the Device Model is a
configuration-time step that rejects any entity whose reserved range would
collide with an already attached entity's range. -/
def addEntity (d : Device) (e : Entity) : Option Device :=
  if d.entities.any (fun e2 => overlaps (reservedRange d e) (reservedRange d e2)) then
    none
  else
    some { d with entities := d.entities ++ [e] }

/-- Modelled from the spec: building a Device Model by attaching entities in
construction order; the first layout collision aborts model construction. -/
def buildDevice (d : Device) : List Entity → Option Device
  | [] => some d
  | e :: rest =>
    match addEntity d e with
    | none => none
    | some d2 => buildDevice d2 rest

/-- The Device Model invariant that no two attached entities' reserved
ranges overlap. -/
def DisjointDevice (d : Device) : Prop :=
  List.Pairwise (fun e1 e2 => overlaps (reservedRange d e1) (reservedRange d e2) = false)
    d.entities

/-- Output addresses are pairwise distinct in the entity collection, the
topological condition under which address-to-entity re-linking is exact. -/
def UniqueOwords (d : Device) : Prop :=
  List.Pairwise (fun e1 e2 => e1.oword ≠ e2.oword) d.entities

/-- A bit position outside the written window is unchanged by `writeBits`. -/
theorem writeBits_get_outside :
    ∀ (bs : List Bool) (off : Nat) (v : List Bool) (i : Nat),
      i < off ∨ off + v.length ≤ i → (writeBits bs off v).get? i = bs.get? i
  | [], _, _, _, _ => by simp [writeBits]
  | _ :: _, n + 1, v, 0, _ => by simp [writeBits]
  | _ :: bs, n + 1, v, j + 1, h => by
    simp only [writeBits, List.get?]
    exact writeBits_get_outside bs n v j (by omega)
  | _ :: _, 0, [], i, _ => by simp [writeBits]
  | _ :: _, 0, x :: vs, 0, h => by
    exfalso
    simp only [List.length_cons] at h
    omega
  | _ :: bs, 0, x :: vs, j + 1, h => by
    simp only [writeBits, List.get?]
    exact writeBits_get_outside bs 0 vs j
      (by simp only [List.length_cons] at h; omega)

/-- Reading back the window just written returns exactly the written bits,
provided the window lies inside the array. -/
theorem readBits_writeBits :
    ∀ (bs : List Bool) (off : Nat) (v : List Bool), off + v.length ≤ bs.length →
      readBits (writeBits bs off v) off v.length = v
  | [], off, v, h => by
    simp only [List.length_nil] at h
    have hv : v = [] := List.eq_nil_of_length_eq_zero (by omega)
    subst hv
    simp [readBits, writeBits]
  | b :: bs, n + 1, v, h => by
    simp only [writeBits, readBits, List.drop_succ_cons]
    exact readBits_writeBits bs n v (by simp only [List.length_cons] at h; omega)
  | b :: bs, 0, [], h => by simp [readBits, writeBits]
  | b :: bs, 0, x :: vs, h => by
    simp only [writeBits, readBits, List.drop_zero, List.length_cons, List.take_succ_cons]
    have hrec := readBits_writeBits bs 0 vs
      (by simp only [List.length_cons] at h; omega)
    simp only [readBits, List.drop_zero] at hrec
    simp [hrec]

/-- An encoded selector field has exactly the selector width. -/
theorem encodeAddr_length (w : Nat) : ∀ a, (encodeAddr w a).length = w := by
  induction w with
  | zero => intro a; rfl
  | succ w ih => intro a; simp [encodeAddr, ih]

/-- Decoding an encoded address recovers the address modulo the field
capacity. -/
theorem decodeAddr_encodeAddr (w : Nat) : ∀ a, decodeAddr (encodeAddr w a) = a % 2 ^ w := by
  induction w with
  | zero => intro a; simp [encodeAddr, decodeAddr, Nat.mod_one]
  | succ w ih =>
    intro a
    have hsplit : a % 2 ^ (w + 1) = a % 2 + 2 * (a / 2 % 2 ^ w) := by
      have h2 : (2 : Nat) ^ (w + 1) = 2 * 2 ^ w := by ring
      have hd : a % (2 * 2 ^ w) / 2 = a / 2 % 2 ^ w :=
        Nat.mod_mul_right_div_self a 2 (2 ^ w)
      have hm : a % (2 * 2 ^ w) % 2 = a % 2 :=
        Nat.mod_mod_of_dvd a ⟨2 ^ w, rfl⟩
      have hx := Nat.div_add_mod (a % (2 * 2 ^ w)) 2
      rw [h2]
      omega
    rw [hsplit, encodeAddr]
    simp only [decodeAddr, ih]
    rcases Nat.mod_two_eq_zero_or_one a with h | h <;> simp [h]

/-- When output addresses are pairwise distinct, re-linking the saved
address finds exactly the producer that was referenced before the save. -/
theorem findByOword_get :
    ∀ (l : List Entity) (idx : Nat) (p : Entity),
      List.Pairwise (fun e1 e2 => e1.oword ≠ e2.oword) l →
      l.get? idx = some p → findByOword l p.oword = some idx
  | [], idx, p, _, hp => by simp at hp
  | e :: rest, 0, p, _, hp => by
    simp only [List.get?] at hp
    injection hp with hp
    subst hp
    simp [findByOword]
  | e :: rest, n + 1, p, hu, hp => by
    simp only [List.get?] at hp
    have hmem : p ∈ rest := List.get?_mem hp
    have hne : e.oword ≠ p.oword := (List.pairwise_cons.mp hu).1 p hmem
    have hrec := findByOword_get rest n p (List.pairwise_cons.mp hu).2 hp
    simp [findByOword, hne, hrec]

/-- If some entity in the collection carries the decoded output address,
re-linking succeeds and yields an entity with that address. -/
theorem findByOword_exists :
    ∀ (l : List Entity) (a : Nat), (∃ p ∈ l, p.oword = a) →
      ∃ idx p2, findByOword l a = some idx ∧ l.get? idx = some p2 ∧ p2.oword = a
  | [], a, h => by simp at h
  | e :: rest, a, h => by
    by_cases he : e.oword = a
    · exact ⟨0, e, by simp [findByOword, he], rfl, he⟩
    · have hrest : ∃ p ∈ rest, p.oword = a := by
        rcases h with ⟨p, hp, ha⟩
        rcases List.mem_cons.mp hp with h1 | h1
        · exact absurd ha (h1 ▸ he)
        · exact ⟨p, h1, ha⟩
      rcases findByOword_exists rest a hrest with ⟨idx, p2, hf, hg, ha⟩
      exact ⟨idx + 1, p2, by simp [findByOword, he, hf], by simpa using hg, ha⟩

/-- Loading never changes the entity's static kind. -/
theorem Load_snd_kind (d : Device) (e : Entity) (bs : List Bool) :
    (Load d e bs).2.kind = e.kind := by
  cases hk : e.kind with
  | source => simp [Load, hk]
  | inverter =>
    simp only [Load, hk]
    cases findByOword d.entities (decodeAddr (readBits bs (configBase d e) d.selWidth)) <;>
      simp [hk]

/-- The configuration length is a function of the entity's kind alone. -/
theorem GetConfigLen_eq_of_kind (d : Device) (e1 e2 : Entity) (h : e1.kind = e2.kind) :
    GetConfigLen d e1 = GetConfigLen d e2 := by
  simp [GetConfigLen, h]

/-- Range overlap is a symmetric test. -/
theorem overlaps_comm (r1 r2 : Nat × Nat) : overlaps r1 r2 = overlaps r2 r1 := by
  simp [overlaps, Bool.and_comm]

/-- Attaching an entity preserves the pairwise-disjoint invariant: the
configuration-time collision check rejects any overlap. -/
theorem addEntity_disjoint (d : Device) (e : Entity) (d2 : Device)
    (hd : DisjointDevice d) (h : addEntity d e = some d2) : DisjointDevice d2 := by
  unfold addEntity at h
  by_cases hc :
      d.entities.any (fun e2 => overlaps (reservedRange d e) (reservedRange d e2)) = true
  · rw [if_pos hc] at h
    exact absurd h (by simp)
  · rw [if_neg hc] at h
    injection h with h
    subst h
    unfold DisjointDevice at hd ⊢
    rw [List.pairwise_append]
    refine ⟨hd, List.pairwise_singleton _ _, ?_⟩
    intro x hx y hy
    rw [List.mem_singleton] at hy
    rw [hy]
    have hnot : ¬ overlaps (reservedRange d e) (reservedRange d x) = true := by
      intro hcon
      exact hc (List.any_eq_true.mpr ⟨x, hx, hcon⟩)
    rw [overlaps_comm]
    exact Bool.eq_false_iff.mpr hnot

/-- A device built entity by entity satisfies the pairwise-disjoint
invariant whenever construction succeeds. -/
theorem buildDevice_disjoint :
    ∀ (es : List Entity) (d d2 : Device), DisjointDevice d →
      buildDevice d es = some d2 → DisjointDevice d2
  | [], d, d2, hd, h => by
    simp only [buildDevice] at h
    injection h with h
    subst h
    exact hd
  | e :: rest, d, d2, hd, h => by
    simp only [buildDevice] at h
    cases ha : addEntity d e with
    | none => rw [ha] at h; exact absurd h (by simp)
    | some dm =>
      rw [ha] at h
      exact buildDevice_disjoint rest dm d2 (addEntity_disjoint d e dm hd ha) h

/-- Concrete producing entity (spec scenario entity `A`): no inputs, output
address 1, zero configuration bits. -/
def entA : Entity := ⟨EntityKind.source, 0, 0, 1, none⟩

/-- Concrete inverter (spec scenario entity `B`): one input wired to the
producer at index 0. -/
def entB : Entity := ⟨EntityKind.inverter, 0, 1, 0, some 0⟩

/-- Concrete two-entity device: selector width 2, 8 bits per matrix, a
16-bit configuration image. -/
def devAB : Device := ⟨2, 8, 16, [entA, entB]⟩

/-- An all-zero 16-bit configuration image. -/
def bits16 : List Bool := List.replicate 16 false

/-- An all-one 16-bit configuration image, whose selector field for `entB`
decodes to address 3, carried by no entity of `devAB`. -/
def ones16 : List Bool := List.replicate 16 true

/-- Concrete unwired inverter at the spec's scenario address
(matrix 0, ibase 4, oword 0) with a one-bit selector. -/
def entUnwired : Entity := ⟨EntityKind.inverter, 0, 4, 0, none⟩

/-- Concrete device for the unwired-save scenario: bit-array length 64,
selector width 1, so the unwired inverter's `GetConfigLen` is 1. -/
def dev64 : Device := ⟨1, 8, 64, [entUnwired]⟩

/-- An all-zero 64-bit configuration image. -/
def bits64 : List Bool := List.replicate 64 false

/-- Concrete producer whose output address 5 does not fit a one-bit
selector field. -/
def entFar : Entity := ⟨EntityKind.source, 0, 0, 5, none⟩

/-- Concrete inverter wired to `entFar`. -/
def entNear : Entity := ⟨EntityKind.inverter, 0, 1, 0, some 0⟩

/-- Concrete device in which the wired producer's address overflows the
selector width. -/
def devFar : Device := ⟨1, 8, 16, [entFar, entNear]⟩

/-- C1: Round-trip law — for an entity whose input resolves to a producer
whose output address fits the selector width, with the reserved range inside
the bit array and output addresses unique in the Device Model topology,
`Save` succeeds and `Load` on the saved image reproduces the entity's
pre-`Save` logical state exactly. -/
theorem save_load_roundtrip (d : Device) (e p : Entity) (idx : Nat) (bs : List Bool)
    (hu : UniqueOwords d) (hk : e.kind = EntityKind.inverter)
    (hin : e.input = some idx) (hp : d.entities.get? idx = some p)
    (hfit : p.oword < 2 ^ d.selWidth)
    (hlen : configBase d e + d.selWidth ≤ bs.length) :
    (Save d e bs).1 = true ∧ Load d e (Save d e bs).2 = (true, e) := by
  have hsave : Save d e bs =
      (true, writeBits bs (configBase d e) (encodeAddr d.selWidth p.oword)) := by
    have hp2 := hp
    rw [List.get?_eq_getElem?] at hp2
    simp [Save, hk, hin, hp2, hfit]
  refine ⟨by rw [hsave], ?_⟩
  rw [hsave]
  have hread : readBits (writeBits bs (configBase d e) (encodeAddr d.selWidth p.oword))
      (configBase d e) d.selWidth = encodeAddr d.selWidth p.oword := by
    have hlen2 : configBase d e + (encodeAddr d.selWidth p.oword).length ≤ bs.length := by
      rw [encodeAddr_length]; exact hlen
    have := readBits_writeBits bs (configBase d e) (encodeAddr d.selWidth p.oword) hlen2
    rwa [encodeAddr_length] at this
  have hdec : decodeAddr (encodeAddr d.selWidth p.oword) = p.oword := by
    rw [decodeAddr_encodeAddr]; exact Nat.mod_eq_of_lt hfit
  have hfind : findByOword d.entities p.oword = some idx :=
    findByOword_get d.entities idx p hu hp
  obtain ⟨k, m, ib, ow, inp⟩ := e
  have hin2 : inp = some idx := hin
  subst hin2
  have hk2 : k = EntityKind.inverter := hk
  subst hk2
  simp only [Load, hread, hdec, hfind]

/-- Closed instance of the round-trip law on the concrete two-entity
device, discharging every hypothesis at that input. -/
theorem save_load_roundtrip_witness :
    UniqueOwords devAB ∧ entB.input = some 0 ∧
    ((Save devAB entB bits16).1 = true ∧
      Load devAB entB (Save devAB entB bits16).2 = (true, entB)) :=
  ⟨by unfold UniqueOwords; decide, rfl,
    save_load_roundtrip devAB entB entA 0 bits16 (by unfold UniqueOwords; decide) rfl rfl rfl
      (by decide) (by decide)⟩

/-- C2: In a Device Model whose construction succeeded, the reserved bit
ranges of any two distinct entities, determined by their addressing triples
and `GetConfigLen`, do not overlap. -/
theorem distinct_ranges_disjoint (sw mb len : Nat) (es : List Entity) (d : Device)
    (hb : buildDevice (Device.mk sw mb len []) es = some d)
    (i j : Nat) (e1 e2 : Entity) (hij : i ≠ j)
    (h1 : d.entities.get? i = some e1) (h2 : d.entities.get? j = some e2) :
    overlaps (reservedRange d e1) (reservedRange d e2) = false := by
  have hd : DisjointDevice d :=
    buildDevice_disjoint es (Device.mk sw mb len []) d
      (by unfold DisjointDevice; exact List.Pairwise.nil) hb
  unfold DisjointDevice at hd
  rw [List.pairwise_iff_get] at hd
  rcases List.get?_eq_some.mp h1 with ⟨hi, hg1⟩
  rcases List.get?_eq_some.mp h2 with ⟨hj, hg2⟩
  rcases Nat.lt_or_ge i j with hlt | hge
  · have := hd ⟨i, hi⟩ ⟨j, hj⟩ hlt
    rwa [hg1, hg2] at this
  · have hlt2 : j < i := by omega
    have := hd ⟨j, hj⟩ ⟨i, hi⟩ hlt2
    rw [hg1, hg2] at this
    rw [overlaps_comm]
    exact this

/-- Closed instance of the disjoint-ranges invariant: the concrete
two-entity device is constructed successfully and its two entities'
reserved ranges do not overlap. -/
theorem distinct_ranges_disjoint_witness :
    buildDevice (Device.mk 2 8 16 []) [entA, entB] = some devAB ∧
    overlaps (reservedRange devAB entA) (reservedRange devAB entB) = false :=
  ⟨by decide,
    distinct_ranges_disjoint 2 8 16 [entA, entB] devAB (by decide) 0 1 entA entB
      (by decide) rfl rfl⟩

/-- C3: For an entity with a connected input, `Save` resolves the input
reference to the producing entity's current output address and encodes that
address value into the selector configuration bits of the entity's reserved
range, and `Load` on the resulting image reconstructs the selector field to
the same address value (an input binding whose producer carries that
address). -/
theorem save_encodes_resolved_address (d : Device) (e p : Entity) (idx : Nat) (bs : List Bool)
    (hk : e.kind = EntityKind.inverter) (hin : e.input = some idx)
    (hp : d.entities.get? idx = some p) (hfit : p.oword < 2 ^ d.selWidth)
    (hlen : configBase d e + d.selWidth ≤ bs.length) :
    decodeAddr (readBits (Save d e bs).2 (configBase d e) d.selWidth) = p.oword ∧
    ∃ idx2 p2, Load d e (Save d e bs).2 = (true, { e with input := some idx2 }) ∧
      d.entities.get? idx2 = some p2 ∧ p2.oword = p.oword := by
  have hsave : Save d e bs =
      (true, writeBits bs (configBase d e) (encodeAddr d.selWidth p.oword)) := by
    have hp2 := hp
    rw [List.get?_eq_getElem?] at hp2
    simp [Save, hk, hin, hp2, hfit]
  have hread : readBits (writeBits bs (configBase d e) (encodeAddr d.selWidth p.oword))
      (configBase d e) d.selWidth = encodeAddr d.selWidth p.oword := by
    have hlen2 : configBase d e + (encodeAddr d.selWidth p.oword).length ≤ bs.length := by
      rw [encodeAddr_length]; exact hlen
    have := readBits_writeBits bs (configBase d e) (encodeAddr d.selWidth p.oword) hlen2
    rwa [encodeAddr_length] at this
  have hdec : decodeAddr (encodeAddr d.selWidth p.oword) = p.oword := by
    rw [decodeAddr_encodeAddr]; exact Nat.mod_eq_of_lt hfit
  rcases findByOword_exists d.entities p.oword ⟨p, List.get?_mem hp, rfl⟩ with
    ⟨idx2, p2, hf, hg, ha⟩
  refine ⟨?_, idx2, p2, ?_, hg, ha⟩
  · rw [hsave]
    show decodeAddr (readBits (writeBits bs (configBase d e) (encodeAddr d.selWidth p.oword))
      (configBase d e) d.selWidth) = p.oword
    rw [hread, hdec]
  · rw [hsave]
    show Load d e (writeBits bs (configBase d e) (encodeAddr d.selWidth p.oword)) =
      (true, { e with input := some idx2 })
    simp only [Load, hk, hread, hdec, hf]

/-- Closed instance of the address-encoding property on the concrete
two-entity device: the saved selector field of `entB` decodes to the output
address of `entA` and loading reconstructs a binding to an entity at that
address. -/
theorem save_encodes_resolved_address_witness :
    decodeAddr (readBits (Save devAB entB bits16).2 (configBase devAB entB)
      devAB.selWidth) = entA.oword ∧
    ∃ idx2 p2, Load devAB entB (Save devAB entB bits16).2 =
        (true, { entB with input := some idx2 }) ∧
      devAB.entities.get? idx2 = some p2 ∧ p2.oword = entA.oword :=
  save_encodes_resolved_address devAB entB entA 0 bits16 rfl rfl rfl
    (by decide) (by decide)

/-- C4: When the inverter's required input is unconnected (and it has no
defined default), `Save` returns a failure result and leaves every bit of
the bit array outside the entity's reserved range unchanged. -/
theorem save_unconnected_unchanged (d : Device) (e : Entity) (bs : List Bool)
    (hk : e.kind = EntityKind.inverter) (hin : e.input = none) :
    (Save d e bs).1 = false ∧
    ∀ i, i < (reservedRange d e).1 ∨ (reservedRange d e).1 + (reservedRange d e).2 ≤ i →
      (Save d e bs).2.get? i = bs.get? i := by
  have hs : Save d e bs = (false, bs) := by simp [Save, hk, hin]
  rw [hs]
  exact ⟨rfl, fun i _ => rfl⟩

/-- Closed instance of the unconnected-input failure on the spec's
64-bit scenario device: the failed save reports failure and bit 63, outside
the single reserved bit, is unchanged. -/
theorem save_unconnected_unchanged_witness :
    (Save dev64 entUnwired bits64).1 = false ∧
    (Save dev64 entUnwired bits64).2.get? 63 = bits64.get? 63 :=
  ⟨(save_unconnected_unchanged dev64 entUnwired bits64 rfl rfl).1,
    (save_unconnected_unchanged dev64 entUnwired bits64 rfl rfl).2 63 (by decide)⟩

/-- C5: When the bit pattern in the entity's reserved range decodes to no
valid state for the primitive (no entity of the Device Model carries the
decoded output address), `Load` returns a failure result and the entity's
previous logical state is left unmodified. -/
theorem load_invalid_pattern_unmodified (d : Device) (e : Entity) (bs : List Bool)
    (hk : e.kind = EntityKind.inverter)
    (hnone : findByOword d.entities
      (decodeAddr (readBits bs (configBase d e) d.selWidth)) = none) :
    (Load d e bs).1 = false ∧ (Load d e bs).2 = e := by
  simp [Load, hk, hnone]

/-- Closed instance of the invalid-pattern failure: the all-ones image
decodes `entB`'s selector field to address 3, which no entity of the
concrete device carries, so the load fails and leaves `entB` unchanged. -/
theorem load_invalid_pattern_unmodified_witness :
    (Load devAB entB ones16).1 = false ∧ (Load devAB entB ones16).2 = entB :=
  load_invalid_pattern_unmodified devAB entB ones16 rfl (by decide)

/-- C6: A wiring error at `Save` — a dangling producer reference, or a
resolved output address that does not fit the selector width — is reported
as a failure result returned from the call, which leaves the bit array
unchanged; no operation aborts the process (every modelled operation is a
total function).  The inverter's `SetInput` takes no port name, so a
nonexistent-port wiring error cannot arise from it. -/
theorem save_wiring_error_failure_result (d : Device) (e : Entity) (bs : List Bool) (idx : Nat)
    (hk : e.kind = EntityKind.inverter) (hin : e.input = some idx)
    (herr : d.entities.get? idx = none ∨
      ∃ p, d.entities.get? idx = some p ∧ 2 ^ d.selWidth ≤ p.oword) :
    (Save d e bs).1 = false ∧ (Save d e bs).2 = bs := by
  rcases herr with h | ⟨p, hp, hbig⟩
  · rw [List.get?_eq_getElem?] at h
    simp [Save, hk, hin, h]
  · have hnf : ¬ p.oword < 2 ^ d.selWidth := by omega
    have hp2 := hp
    rw [List.get?_eq_getElem?] at hp2
    simp [Save, hk, hin, hp2, hnf]

/-- Closed instance of the wiring-error failure: in the concrete device the
wired producer's output address 5 does not fit the one-bit selector field,
so the save reports failure and leaves the image untouched. -/
theorem save_wiring_error_failure_result_witness :
    (Save devFar entNear bits16).1 = false ∧ (Save devFar entNear bits16).2 = bits16 :=
  save_wiring_error_failure_result devFar entNear bits16 0 rfl rfl
    (Or.inr ⟨entFar, rfl, by decide⟩)

/-- C7: `GetConfigLen` is a pure function of the entity's static kind and
the device's construction parameters: it is unchanged by `SetInput` and by
`Load` (and `Save` does not modify the entity at all, as its type shows),
so repeated calls in any call sequence return the same value. -/
theorem getconfiglen_pure (d : Device) (e : Entity) (pr : Nat) (bs : List Bool) :
    GetConfigLen d (SetInput e pr) = GetConfigLen d e ∧
    GetConfigLen d (Load d e bs).2 = GetConfigLen d e :=
  ⟨rfl, GetConfigLen_eq_of_kind d _ e (Load_snd_kind d e bs)⟩

/-- C8: `SetInput` twice on the inverter's single port silently replaces
the prior binding — last write wins — and only the most recent binding
affects the next `Save`; `SetInput` itself never touches a bit array (its
type takes none and returns none). -/
theorem setinput_last_write_wins (d : Device) (e : Entity) (p1 p2 : Nat) (bs : List Bool) :
    SetInput (SetInput e p1) p2 = SetInput e p2 ∧
    Save d (SetInput (SetInput e p1) p2) bs = Save d (SetInput e p2) bs :=
  ⟨rfl, rfl⟩

/-- C9: `GetInputPorts` and `GetOutputPorts` are pure functions of the
entity's static kind: repeated calls return the same ordered sequence, and
no entity-state change (`SetInput`, `Load`) affects them; being functions
that take no bit array, they change no entity state and no bit array. -/
theorem ports_deterministic_pure (d : Device) (e : Entity) (pr : Nat) (bs : List Bool) :
    GetInputPorts (SetInput e pr) = GetInputPorts e ∧
    GetOutputPorts (SetInput e pr) = GetOutputPorts e ∧
    GetInputPorts (Load d e bs).2 = GetInputPorts e ∧
    GetOutputPorts (Load d e bs).2 = GetOutputPorts e := by
  have hk := Load_snd_kind d e bs
  refine ⟨rfl, rfl, ?_, ?_⟩ <;> simp only [GetInputPorts, GetOutputPorts, hk]

/-- C10: The inverter holds exactly one input binding: `SetInput` takes
only a producer reference (no port name) and unconditionally rebinds the
single `m_input` field, leaving every other attribute of the entity, and
the producer it references, untouched.  The binding is modelled as a
non-owning index handle into the Device Model's collection. -/
theorem setinput_single_binding (e : Entity) (pr : Nat) :
    (SetInput e pr).input = some pr ∧ (SetInput e pr).kind = e.kind ∧
    (SetInput e pr).matrix = e.matrix ∧ (SetInput e pr).ibase = e.ibase ∧
    (SetInput e pr).oword = e.oword :=
  ⟨rfl, rfl, rfl, rfl, rfl⟩
